import Mathlib

/-!
Verification of the classification and filtering pipeline of the
training-manager-jobs repository: a shallow embedding in Lean 4 of the
text classifiers (src/scraper.py), the ingestion pipeline
(src/scraper.py, scrape_and_store), the store existence check
(src/database.py, job_exists), the Streamlit location filter
(src/app.py) and the Flask location filter (src/web.py), together with
theorems settling the frozen claims about them.

Strings are modelled by Lean String; Python truthiness of a string is
modelled by comparison with the empty string, Python s.lower() by
String.pyLower (both lower-case ASCII letters only), Python substring
membership (needle in hay) by an explicit scan (subList / strContains),
and Python slicing s[:n] by taking the first n characters (pyslice).
Optional / NaN-able fields are modelled by Option. The persistent store
is modelled by the list of Job records the session sees, in insertion
order; job_exists scans it by url exactly as the SQLAlchemy query does
(with autoflush, a pending insert of the same session is visible to the
query). The jobs table enforces uniqueness of job_url as a hard
constraint (database.py, line 37), so the commit at the end of a run
(scraper.py, line 298) raises and get_session rolls the whole
transaction back (database.py, lines 62 to 70) whenever a staged record
violates it; the commit step of the model checks the constraint on the
final list and keeps the prior store on a violation. Wall-clock fields
(created_at, date_posted) are elided: no claim depends on them.
-/

/-- Model of Python s.lower(): lower-case every character (Char.toLower
lowers the ASCII letters and fixes everything else, as Python does on
ASCII text). Defined by a plain map over the characters so that it
computes inside the kernel. -/
def String.pyLower (s : String) : String :=
  String.mk (s.toList.map Char.toLower)

namespace LDJobs

/-- Model of list-of-char equality at the front: leadEq n h is true when
n is an initial segment of h (used to build the substring scan). -/
def leadEq : List Char → List Char → Bool
  | [], _ => true
  | _ :: _, [] => false
  | a :: as, b :: bs => a = b && leadEq as bs

/-- Model of Python substring membership over char lists: subList n h is
true when the list n occurs contiguously inside h (the empty list occurs
in every list). -/
def subList (needle : List Char) : List Char → Bool
  | [] => needle.isEmpty
  | b :: bs => leadEq needle (b :: bs) || subList needle bs

/-- Model of Python needle in hay for strings. -/
def strContains (hay needle : String) : Bool :=
  subList needle.toList hay.toList

/-- Model of Python slicing s[:n] (the first n characters of s). -/
def pyslice (s : String) (n : Nat) : String :=
  String.mk (s.toList.take n)

/-! ## Text classifiers (src/scraper.py) -/

/-- The fixed L&D keyword list of is_valid_ld_role (src/scraper.py). -/
def ld_keywords : List String :=
  ["training", "trainer", "learning", "l&d",
   "instructional", "curriculum", "elearning", "e-learning", "courseware",
   "enablement",
   "talent development", "organizational development", "professional development",
   "leadership development", "employee development",
   "facilitator", "facilitation", "coach", "coaching",
   "onboarding",
   "lms", "learning management",
   "corporate education", "education manager", "education director"]

/-- Model of is_valid_ld_role (src/scraper.py, lines 40-77): false for an
empty title, else true iff some L&D keyword occurs in the lower-cased
title. -/
def is_valid_ld_role (title : String) : Bool :=
  if title = "" then false
  else ld_keywords.any (fun k => strContains title.pyLower k)

/-- The ops/admin disqualifier keywords of the enablement bouncer. -/
def ops_keywords : List String :=
  ["deal desk", "revops", "revenue operations", "sales operations",
   "crm admin", "salesforce", "quota", "pipeline", "forecasting"]

/-- The learning keywords of the enablement bouncer. -/
def learning_keywords : List String :=
  ["training", "learning", "facilitation", "coaching", "onboarding",
   "curriculum", "content", "instructional", "development"]

/-- Model of is_valid_enablement_role (src/scraper.py, lines 84-115):
disqualify on any ops keyword in the lower-cased title; otherwise accept
on a learning keyword in the title, or, when a description is present,
in the description. The Python guard (str(title).lower() if title else
a blank string) is kept verbatim. -/
def is_valid_enablement_role (title description : String) : Bool :=
  let title_lower := if title ≠ "" then title.pyLower else ""
  if ops_keywords.any (fun k => strContains title_lower k) then false
  else if learning_keywords.any (fun k => strContains title_lower k) then true
  else if description ≠ "" then
    learning_keywords.any (fun k => strContains description.pyLower k)
  else false

/-- The level keywords of get_level (src/scraper.py). -/
def level_keywords : List String :=
  ["manager", "director", "vp", "chief", "head", "lead"]

/-- Model of get_level (src/scraper.py, lines 122-136). -/
def get_level (title : String) : String :=
  if title = "" then "Individual Contributor"
  else if level_keywords.any (fun k => strContains title.pyLower k) then "Management+"
  else "Individual Contributor"

/-- Rounding of a/1000 to the nearest integer, ties to even: the value
Python renders for the float a/1000 under the .0f format when a is an
integer number of dollars (the only tie, remainder 500, is exactly
representable, so round-half-even applies; every other remainder is far
from a tie). -/
def roundKilo (a : Nat) : Nat :=
  let q := a / 1000
  let r := a % 1000
  if 500 < r then q + 1
  else if r < 500 then q
  else if q % 2 = 0 then q else q + 1

/-- Model of the inner format_amount of get_salary (src/scraper.py):
absent for a missing amount, else a dollar string, in thousands with a
K suffix for amounts of at least 1000. -/
def format_amount (amt : Option Nat) : Option String :=
  match amt with
  | none => none
  | some a => if 1000 ≤ a then some ("$" ++ toString (roundKilo a) ++ "K")
              else some ("$" ++ toString a)

/-- Model of get_salary (src/scraper.py, lines 139-185), over the salary
fields of a raw posting row (min_amount, max_amount, interval, currency;
the currency is read by the source but never rendered). -/
def get_salary (min_amt max_amt : Option Nat) (interval currency : Option String) :
    Option String :=
  if min_amt = none ∧ max_amt = none then none
  else
    let min_str := format_amount min_amt
    let max_str := format_amount max_amt
    let base : Option String :=
      match min_str, max_str with
      | some mn, some mx => some (mn ++ " - " ++ mx)
      | some mn, none => some (mn ++ "+")
      | none, some mx => some ("Up to " ++ mx)
      | none, none => none
    match base with
    | none => none
    | some salary =>
      match interval with
      | none => some salary
      | some iv =>
        if iv = "" then some salary
        else if strContains iv.pyLower "year" then some (salary ++ "/yr")
        else if strContains iv.pyLower "hour" then some (salary ++ "/hr")
        else if strContains iv.pyLower "month" then some (salary ++ "/mo")
        else some salary

/-! ## Data model and ingestion pipeline (src/scraper.py, src/database.py) -/

/-- A raw posting row as returned by the aggregation collaborator, with
the fields scrape_and_store reads (row.get with a blank default for the
text fields). Wall-clock fields are elided. -/
structure Cand where
  job_url : String
  title : String
  description : String
  company : String
  location : String
  min_amount : Option Nat
  max_amount : Option Nat
  interval : Option String
  currency : Option String
deriving DecidableEq, Repr

/-- A persisted Job record (src/database.py, class Job): the columns the
claims are about. category is a column of the model; scrape_and_store
constructs Job without passing it, so it keeps its default (null). -/
structure JobRec where
  title : Option String
  company : Option String
  salary : Option String
  location : Option String
  job_url : String
  description : Option String
  level : String
  category : Option String
deriving DecidableEq, Repr

/-- The Job record scrape_and_store builds from a candidate row
(src/scraper.py, lines 274-285): text fields truncated as in the source
(title, company, location to 500 characters, job_url to 2000), empty
strings stored as null, level derived by get_level from the untruncated
title, category not passed (default null). -/
def mkJob (c : Cand) : JobRec :=
  { title := if c.title = "" then none else some (pyslice c.title 500)
    company := if c.company = "" then none else some (pyslice c.company 500)
    salary := get_salary c.min_amount c.max_amount c.interval c.currency
    location := if c.location = "" then none else some (pyslice c.location 500)
    job_url := pyslice c.job_url 2000
    description := if c.description = "" then none else some c.description
    level := get_level c.title
    category := none }

/-- Model of job_exists (src/database.py, lines 73-75): the store holds a
record whose job_url column equals the queried url. -/
def job_exists (store : List JobRec) (url : String) : Bool :=
  store.any (fun j => j.job_url = url)

/-- The per-run skip and insert counters scrape_and_store reports. -/
structure ScrapeStats where
  new : Nat
  dup : Nat
  notLd : Nat
  bounced : Nat
deriving DecidableEq, Repr

/-- All counters at zero, as at the start of a run. -/
def stats0 : ScrapeStats := ⟨0, 0, 0, 0⟩

/-- The guard under which scrape_and_store applies the enablement
bouncer (src/scraper.py, line 261): a non-empty title containing the
substring enablement, lower-cased. -/
def enablementGate (c : Cand) : Bool :=
  c.title ≠ "" && strContains c.title.pyLower "enablement"

/-- One iteration of the candidate loop of scrape_and_store
(src/scraper.py, lines 241-288): skip on empty url, then on a duplicate
url (job_exists), then on the strict L&D filter, then on the bouncer
when the enablement gate holds; otherwise append the new Job record. -/
def scrapeStep (st : List JobRec × ScrapeStats) (c : Cand) : List JobRec × ScrapeStats :=
  if c.job_url = "" then st
  else if job_exists st.1 c.job_url then (st.1, { st.2 with dup := st.2.dup + 1 })
  else if is_valid_ld_role c.title = false then (st.1, { st.2 with notLd := st.2.notLd + 1 })
  else if enablementGate c = true ∧ is_valid_enablement_role c.title c.description = false then
    (st.1, { st.2 with bounced := st.2.bounced + 1 })
  else (st.1 ++ [mkJob c], { st.2 with new := st.2.new + 1 })

/-- Model of the commit at the end of a run (src/scraper.py, line 298)
against the url-uniqueness constraint of the jobs table
(src/database.py, line 37, unique=True): when the records the session
flushes leave every job_url distinct the commit succeeds; otherwise the
database raises an IntegrityError, get_session rolls the transaction
back (src/database.py, lines 62 to 70) and the store keeps its prior
contents. A committed store already satisfies the constraint, so a
violation can only come from the records staged by this run. The
counters are per-run locals either way. -/
def commit (store : List JobRec) (r : List JobRec × ScrapeStats) :
    List JobRec × ScrapeStats :=
  if (r.1.map (fun j => j.job_url)).Nodup then r else (store, r.2)

/-- Model of one run of scrape_and_store (src/scraper.py, lines
192-298) over a fixed sequence of fetched candidate rows: fold the
candidate loop over the store, starting from fresh counters, then
commit. The (term, location) double loop only determines the candidate
sequence and is absorbed into it; the fetch call is the external
collaborator. -/
def scrape_and_store (store : List JobRec) (cands : List Cand) :
    List JobRec × ScrapeStats :=
  commit store (cands.foldl scrapeStep (store, stats0))

/-! ## Streamlit location filter (src/app.py) -/

/-- The broad location markers (src/app.py, line 207). -/
def BROAD_LOCATIONS : List String :=
  ["united states", "usa", "remote", "nationwide", "anywhere"]

/-- Model of is_broad_location (src/app.py, lines 239-244). -/
def is_broad_location (location : String) : Bool :=
  if location = "" then false
  else BROAD_LOCATIONS.any (fun b => strContains location.pyLower b)

/-- Model of get_state_from_location (src/app.py, lines 247-255). -/
def get_state_from_location (location : String) : String :=
  if location = "" then ""
  else if strContains location.pyLower ", fl" || strContains location.pyLower "florida" then
    "florida"
  else ""

/-- Model of the inner location_matches predicate of filter_by_location
(src/app.py, lines 266-290) on a present (non-NaN) location string:
broad locations always match, else some selected string is contained in
the row location or shares its (only) region tag with it. -/
def location_matches (row_location : String) (selected_locations : List String) : Bool :=
  if is_broad_location row_location then true
  else selected_locations.any (fun sel =>
    strContains row_location.pyLower sel.pyLower ||
    (get_state_from_location sel ≠ "" &&
      get_state_from_location sel = get_state_from_location row_location))

/-- Model of filter_by_location (src/app.py, lines 258-292) as the
per-row inclusion predicate: with an empty selection the frame is
returned unfiltered (every row matches); otherwise a NaN location row is
dropped and a present one is kept iff location_matches holds. -/
def filter_matches (row_location : Option String) (selected_locations : List String) : Bool :=
  if selected_locations.isEmpty then true
  else
    match row_location with
    | none => false
    | some l => location_matches l selected_locations

/-! ## Flask location filter (src/web.py) -/

/-- Model of the location facet of get_jobs (src/web.py, lines 77-79) as
a per-row inclusion predicate: the filter is applied only for a
non-empty selected string, as an ILIKE with the selection wrapped in
percent wildcards, i.e. case-insensitive substring containment (the
selected strings considered here contain no wildcard characters); a
null location never matches ILIKE. -/
def flask_location_matches (row_location : Option String) (selected : String) : Bool :=
  if selected = "" then true
  else
    match row_location with
    | none => false
    | some l => strContains l.pyLower selected.pyLower

/-! ## Match scorer (leads-scoring variant) -/

/-- Modelled from the spec: the topic keyword list of the match scorer
of section 4.6 — the scorer itself is code of the repository that is not
under src/ (src/scrape_training.py holds only the boolean smart_filter
variant with its TOPIC_WORDS), so it is modelled from the words of the
spec. -/
def SCORE_TOPIC_WORDS : List String :=
  ["training", "learning", "l&d", "development", "enablement", "instructional", "education"]

/-- Modelled from the spec: the level keyword list of the match scorer
of section 4.6 (wider than the LEVEL_WORDS of smart_filter: it also has
vice president and senior). -/
def SCORE_LEVEL_WORDS : List String :=
  ["manager", "director", "head", "lead", "principal", "vp", "vice president", "senior"]

/-- Modelled from the spec: the match scorer score(title) of section 4.6
— count distinct topic keyword hits in the lower-cased title, capped at
3, worth 20 points each; count distinct level keyword hits, capped at 2,
worth 20 points each; the total is capped at 100. The scorer is absent
from src/, so this definition follows the words of the spec. -/
def score (title : String) : Nat :=
  let t := title.pyLower
  let topicHits := (SCORE_TOPIC_WORDS.filter (fun w => strContains t w)).length
  let levelHits := (SCORE_LEVEL_WORDS.filter (fun w => strContains t w)).length
  min 100 (min 3 topicHits * 20 + min 2 levelHits * 20)

/-! ## Spec-side restatement of the salary formatter (for claim C5) -/

/-- The rendering of one present amount as the spec words it (section
4.5): values of at least 1000 render as a dollar sign, the amount over
1000 rounded to integer, and K; smaller values as a dollar sign and the
amount. -/
def spec_amount (a : Nat) : String :=
  if 1000 ≤ a then "$" ++ toString (roundKilo a) ++ "K" else "$" ++ toString a

/-- The interval suffix as the spec words it: /yr, /hr or /mo when the
interval string contains year, hour or month case-insensitively, else
nothing. -/
def spec_suffix (interval : Option String) : String :=
  match interval with
  | none => ""
  | some iv =>
    if strContains iv.pyLower "year" then "/yr"
    else if strContains iv.pyLower "hour" then "/hr"
    else if strContains iv.pyLower "month" then "/mo"
    else ""

/-- The salary formatter as the spec words it (section 4.5), for
comparison with get_salary: absent iff both amounts are absent, else the
combination rule over the rendered amounts with the interval suffix
appended. -/
def format_salary_spec (min_amt max_amt : Option Nat) (interval currency : Option String) :
    Option String :=
  match min_amt, max_amt with
  | none, none => none
  | some a, some b => some (spec_amount a ++ " - " ++ spec_amount b ++ spec_suffix interval)
  | some a, none => some (spec_amount a ++ "+" ++ spec_suffix interval)
  | none, some b => some ("Up to " ++ spec_amount b ++ spec_suffix interval)

/-! ## Skip predicates of the candidate loop -/

/-- A candidate the loop rejects on its own text, independently of the
store: it fails the strict L&D filter, or it trips the enablement gate
and fails the bouncer. -/
def contentSkip (c : Cand) : Prop :=
  is_valid_ld_role c.title = false ∨
    (enablementGate c = true ∧ is_valid_enablement_role c.title c.description = false)

/-- A candidate the loop will not insert against the given store: its
url is empty, or already present, or its text is rejected. -/
def skippable (store : List JobRec) (c : Cand) : Prop :=
  c.job_url = "" ∨ job_exists store c.job_url = true ∨ contentSkip c

/-- A candidate the given store accounts for: the loop skips it, or a
record carrying exactly the url its own record would carry (the
truncation of its url) is already present, so re-inserting it would
violate the uniqueness constraint at commit. -/
def handled (store : List JobRec) (c : Cand) : Prop :=
  skippable store c ∨ job_exists store ((mkJob c).job_url) = true

/-! ## Concrete candidates used by witnesses and counterexamples -/

/-- A candidate with every optional field blank, to build the concrete
candidates from. -/
def candBase : Cand :=
  { job_url := "", title := "", description := "", company := "", location := "",
    min_amount := none, max_amount := none, interval := none, currency := none }

/-- A fetched posting that is not an L&D role. -/
def candSE : Cand :=
  { candBase with
    job_url := "https://jobs.example/se-1"
    title := "Software Engineer" }

/-- A valid L&D posting with a managerial title. -/
def candID : Cand :=
  { candBase with
    job_url := "https://jobs.example/id-1"
    title := "Instructional Design Manager"
    location := "Remote"
    min_amount := some 80000
    interval := some "yearly" }

/-- A valid L&D posting with an individual-contributor title. -/
def candTrainer : Cand :=
  { candBase with
    job_url := "https://jobs.example/tr-1"
    title := "Corporate Trainer" }

/-- A valid L&D posting used to instantiate the insertion invariant. -/
def candCoach : Cand :=
  { candBase with
    job_url := "https://jobs.example/co-1"
    title := "Leadership Coach" }

/-- Five hundred letters x: the first 500 characters of the long title
below, and all that survives the 500-character truncation. -/
def xs500 : String := String.mk (List.replicate 500 'x')

/-- A posting whose title is 508 characters long and carries its only
L&D keyword after position 500, so the keyword is cut off by the
500-character truncation of the stored title. -/
def candLongTitle : Cand :=
  { candBase with
    job_url := "https://jobs.example/lt-1"
    title := xs500 ++ "training" }

/-! ## Substring scan: bridge lemmas -/

theorem leadEq_iff (n h : List Char) : leadEq n h = true ↔ n <+: h := by
  induction n generalizing h with
  | nil => simp [leadEq]
  | cons a as ih =>
    cases h with
    | nil => simp [leadEq]
    | cons b bs =>
      simp only [leadEq, Bool.and_eq_true, decide_eq_true_eq, ih, List.cons_prefix_cons]

theorem subList_iff (n h : List Char) : subList n h = true ↔ n <:+: h := by
  induction h with
  | nil => simp [subList, List.isEmpty_iff]
  | cons b bs ih =>
    simp [subList, leadEq_iff, ih, List.infix_cons_iff]

theorem pyLower_toList (s : String) : s.pyLower.toList = s.toList.map Char.toLower := rfl

/-! ## Claim C4: the enablement bouncer -/

/-- Claim C4: is_valid_enablement_role(title, description) is true iff
the lower-cased title contains none of the ops/admin keywords and a
learning keyword occurs in the lower-cased title or, when a description
is present, in the lower-cased description; an ops keyword in the title
makes it false regardless of the description, and an empty description
contributes no match. -/
theorem C4_enablement_bouncer_iff (t d : String) :
    is_valid_enablement_role t d = true ↔
      ((∀ k ∈ ops_keywords, strContains t.pyLower k = false) ∧
        ((∃ k ∈ learning_keywords, strContains t.pyLower k = true) ∨
          (d ≠ "" ∧ ∃ k ∈ learning_keywords, strContains d.pyLower k = true))) := by
  have hl : (if t ≠ "" then t.pyLower else "") = t.pyLower := by
    by_cases h : t = "" <;> simp [h, String.pyLower]
  simp only [is_valid_enablement_role, hl]
  by_cases hops : ops_keywords.any (fun k => strContains t.pyLower k) = true
  · simp only [hops, if_true]
    simp only [List.any_eq_true] at hops
    obtain ⟨k, hk, hks⟩ := hops
    constructor
    · intro hfalse; exact absurd hfalse (by simp)
    · rintro ⟨hall, -⟩
      exact absurd (hall k hk) (by simp [hks])
  · simp only [Bool.not_eq_true] at hops
    simp only [hops, Bool.false_eq_true, if_false]
    have hall : ∀ k ∈ ops_keywords, strContains t.pyLower k = false := by
      simpa [List.any_eq_false] using hops
    by_cases htit : learning_keywords.any (fun k => strContains t.pyLower k) = true
    · simp only [htit, if_true]
      simp only [List.any_eq_true] at htit
      exact ⟨fun _ => ⟨hall, Or.inl htit⟩, fun _ => trivial⟩
    · simp only [Bool.not_eq_true] at htit
      simp only [htit, Bool.false_eq_true, if_false]
      have htall : ∀ k ∈ learning_keywords, strContains t.pyLower k = false := by
        simpa [List.any_eq_false] using htit
      have htitne : ¬ ∃ k ∈ learning_keywords, strContains t.pyLower k = true := by
        rintro ⟨k, hk, hks⟩
        simp [htall k hk] at hks
      by_cases hd : d = ""
      · rw [if_neg (by simp [hd])]
        constructor
        · intro hfalse; exact absurd hfalse (by simp)
        · rintro ⟨-, hex | ⟨hne, -⟩⟩
          · exact absurd hex htitne
          · exact absurd hd hne
      · rw [if_pos hd]
        constructor
        · intro hdesc
          simp only [List.any_eq_true] at hdesc
          exact ⟨hall, Or.inr ⟨hd, hdesc⟩⟩
        · rintro ⟨-, hex | ⟨-, hex⟩⟩
          · exact absurd hex htitne
          · exact List.any_eq_true.mpr hex

/-! ## Claim C6: the level tagger -/

/-- Claim C6: get_level(title) is Management+ iff the lower-cased title
contains one of the level keywords, and Individual Contributor
otherwise, including for the empty title. -/
theorem C6_get_level_iff (t : String) :
    (get_level t = "Management+" ↔ ∃ k ∈ level_keywords, strContains t.pyLower k = true) ∧
    (get_level t = "Management+" ∨ get_level t = "Individual Contributor") ∧
    get_level "" = "Individual Contributor" := by
  refine ⟨?_, ?_, by decide⟩
  · by_cases ht : t = ""
    · subst ht; simp only [get_level]; simp [level_keywords]; decide
    · simp only [get_level, ht, if_false]
      by_cases hany : level_keywords.any (fun k => strContains t.pyLower k) = true
      · simp only [hany, if_true]
        simp only [List.any_eq_true] at hany
        simp [hany]
      · simp only [Bool.not_eq_true] at hany
        simp only [hany, Bool.false_eq_true, if_false]
        constructor
        · intro hcontra; exact absurd hcontra (by decide)
        · intro hex
          obtain ⟨k, hk, hks⟩ := hex
          have := List.any_eq_true.mpr ⟨k, hk, hks⟩
          simp [hany] at this
  · unfold get_level; split_ifs <;> simp

/-! ## Claim C7: the match scorer -/

/-- Claim C7: the match scorer is a pure function of the title with
values in the range 0 to 100; score of the empty title is 0 and score of
Senior Training Manager is 60 (one topic hit worth 20, two level hits
worth 40). The scorer is modelled from section 4.6 of the spec since
only the boolean smart_filter variant is under src/. -/
theorem C7_score_range_and_examples (t : String) :
    score t ≤ 100 ∧ score "" = 0 ∧ score "Senior Training Manager" = 60 := by
  refine ⟨?_, by decide, by decide⟩
  simp only [score]
  exact Nat.min_le_left _ _

/-! ## Claim C3: the Streamlit location filter algebra -/

theorem broad_iff (L : String) :
    is_broad_location L = true ↔ ∃ b ∈ BROAD_LOCATIONS, strContains L.pyLower b = true := by
  by_cases hL : L = ""
  · subst hL; decide
  · simp [is_broad_location, hL, List.any_eq_true]

theorem state_florida_iff (x : String) :
    get_state_from_location x = "florida" ↔
      (strContains x.pyLower ", fl" = true ∨ strContains x.pyLower "florida" = true) := by
  by_cases hx : x = ""
  · subst hx; decide
  · simp only [get_state_from_location, hx, if_false]
    by_cases hc : (strContains x.pyLower ", fl" || strContains x.pyLower "florida") = true
    · rw [if_pos hc]
      simp only [Bool.or_eq_true] at hc
      simp [hc]
    · rw [if_neg hc]
      simp only [Bool.or_eq_true] at hc
      constructor
      · intro h; exact absurd h (by decide)
      · intro h; exact absurd h hc

theorem state_ne_iff (x : String) :
    get_state_from_location x ≠ "" ↔ get_state_from_location x = "florida" := by
  unfold get_state_from_location
  split_ifs <;> decide

theorem region_cond_iff (sel L : String) :
    (decide (get_state_from_location sel ≠ "") &&
        decide (get_state_from_location sel = get_state_from_location L)) = true ↔
      ((strContains sel.pyLower ", fl" = true ∨ strContains sel.pyLower "florida" = true) ∧
        (strContains L.pyLower ", fl" = true ∨ strContains L.pyLower "florida" = true)) := by
  simp only [Bool.and_eq_true, decide_eq_true_eq]
  constructor
  · rintro ⟨hne, heq⟩
    have hsf : get_state_from_location sel = "florida" := (state_ne_iff sel).1 hne
    have hLf : get_state_from_location L = "florida" := heq ▸ hsf
    exact ⟨(state_florida_iff sel).1 hsf, (state_florida_iff L).1 hLf⟩
  · rintro ⟨hs, hL⟩
    have hsf := (state_florida_iff sel).2 hs
    have hLf := (state_florida_iff L).2 hL
    exact ⟨(state_ne_iff sel).2 hsf, hsf.trans hLf.symm⟩

/-- Claim C3: the Streamlit location filter matches every posting under
the empty selection; under a non-empty selection a posting location L
matches iff it contains a broad marker, or contains some selected
string, or shares the florida region with some selected string; and the
three concrete examples of the spec hold. -/
theorem C3_location_filter_algebra (L : String) (S : List String) :
    filter_matches (some L) [] = true ∧
    (S ≠ [] →
      (filter_matches (some L) S = true ↔
        ((∃ b ∈ BROAD_LOCATIONS, strContains L.pyLower b = true) ∨
          ∃ sel ∈ S, (strContains L.pyLower sel.pyLower = true ∨
            ((strContains sel.pyLower ", fl" = true ∨ strContains sel.pyLower "florida" = true) ∧
              (strContains L.pyLower ", fl" = true ∨ strContains L.pyLower "florida" = true)))))) ∧
    filter_matches (some "Remote - USA") ["Orlando, FL"] = true ∧
    filter_matches (some "Orlando, FL") ["Tampa, FL"] = true ∧
    filter_matches (some "Austin, TX") ["Orlando, FL"] = false := by
  refine ⟨rfl, ?_, by decide, by decide, by decide⟩
  intro hS
  have hSe : S.isEmpty = false := by simpa [List.isEmpty_iff] using hS
  simp only [filter_matches, hSe, Bool.false_eq_true, if_false]
  by_cases hb : is_broad_location L = true
  · simp only [location_matches, hb, if_true]
    exact ⟨fun _ => Or.inl ((broad_iff L).1 hb), fun _ => trivial⟩
  · simp only [location_matches]
    rw [if_neg hb]
    have hnb : ¬ ∃ b ∈ BROAD_LOCATIONS, strContains L.pyLower b = true :=
      fun hex => hb ((broad_iff L).2 hex)
    simp only [List.any_eq_true, Bool.or_eq_true, region_cond_iff]
    constructor
    · intro hex; exact Or.inr hex
    · rintro (hbr | hex)
      · exact absurd hbr hnb
      · exact hex

/-! ## Claim C5: the salary formatter -/

theorem format_amount_some (a : Nat) : format_amount (some a) = some (spec_amount a) := by
  by_cases h : 1000 ≤ a <;> simp [format_amount, spec_amount, h]

theorem str_append_empty (s : String) : s ++ "" = s := by
  cases s with
  | mk d =>
    apply String.ext
    show d ++ [] = d
    simp

/-- Claim C5: get_salary agrees everywhere with the salary formatter as
the spec states it (absent iff both amounts absent, dollar and K
rendering of present amounts, the min and max combination rule, and the
yr/hr/mo interval suffix), and the two concrete examples of the spec
hold. -/
theorem C5_salary_formatter (mn mx : Option Nat) (iv cur : Option String) :
    get_salary mn mx iv cur = format_salary_spec mn mx iv cur ∧
    get_salary (some 95000) (some 120000) (some "yearly") (some "USD") = some "$95K - $120K/yr" ∧
    get_salary none none none none = none := by
  refine ⟨?_, by decide, rfl⟩
  have hsuf : ∀ (base : String),
      (match iv with
        | none => some base
        | some ivs =>
          if ivs = "" then some base
          else if strContains ivs.pyLower "year" then some (base ++ "/yr")
          else if strContains ivs.pyLower "hour" then some (base ++ "/hr")
          else if strContains ivs.pyLower "month" then some (base ++ "/mo")
          else some base) = some (base ++ spec_suffix iv) := by
    intro base
    cases iv with
    | none => simp [spec_suffix, str_append_empty]
    | some ivs =>
      by_cases hs : ivs = ""
      · subst hs
        have h1 : spec_suffix (some "") = "" := by decide
        simp [h1, str_append_empty]
      · simp only [spec_suffix]
        rw [if_neg hs]
        split_ifs <;> simp [str_append_empty]
  cases mn with
  | none =>
    cases mx with
    | none => rfl
    | some b =>
      simp only [get_salary, format_salary_spec, format_amount_some]
      rw [if_neg (by simp)]
      exact hsuf _
  | some a =>
    cases mx with
    | none =>
      simp only [get_salary, format_salary_spec, format_amount_some]
      rw [if_neg (by simp)]
      exact hsuf _
    | some b =>
      simp only [get_salary, format_salary_spec, format_amount_some]
      rw [if_neg (by simp)]
      exact hsuf _

/-! ## Claim C9: the two location filters disagree -/

/-- Claim C9: the Streamlit filter_by_location and the Flask get_jobs
location facet are not equivalent: a Remote posting is included by the
Streamlit filter under the broad-location rule but excluded by the Flask
substring filter for the selection Orlando, FL, and the same-region
Florida generalization (Orlando, FL against the selection Tampa, FL)
likewise holds only in the Streamlit variant. -/
theorem C9_filters_not_equivalent :
    filter_matches (some "Remote") ["Orlando, FL"] = true ∧
    flask_location_matches (some "Remote") "Orlando, FL" = false ∧
    filter_matches (some "Orlando, FL") ["Tampa, FL"] = true ∧
    flask_location_matches (some "Orlando, FL") "Tampa, FL" = false := by
  refine ⟨by decide, by decide, by decide, by decide⟩

/-! ## Claim C10: absent locations under the Streamlit filter -/

/-- Claim C10: in filter_by_location a row whose location is absent is
excluded exactly when the selection is non-empty, and passes through
when the selection is empty. -/
theorem C10_absent_location (sels : List String) :
    filter_matches none sels = sels.isEmpty := by
  cases sels <;> rfl

/-! ## Pipeline lemmas -/

theorem job_exists_step {st : List JobRec × ScrapeStats} {c : Cand} {u : String}
    (h : job_exists st.1 u = true) : job_exists (scrapeStep st c).1 u = true := by
  unfold scrapeStep
  split_ifs <;> try exact h
  simp only [job_exists, List.any_append, Bool.or_eq_true]
  exact Or.inl h

theorem job_exists_foldl {cs : List Cand} {st : List JobRec × ScrapeStats} {u : String}
    (h : job_exists st.1 u = true) : job_exists (cs.foldl scrapeStep st).1 u = true := by
  induction cs generalizing st with
  | nil => exact h
  | cons c cs ih =>
    rw [List.foldl_cons]
    exact ih (job_exists_step h)

theorem skippable_step_mono {st : List JobRec × ScrapeStats} {c x : Cand}
    (h : skippable st.1 x) : skippable (scrapeStep st c).1 x := by
  unfold skippable at h ⊢
  rcases h with hu | he | hc
  · exact Or.inl hu
  · exact Or.inr (Or.inl (job_exists_step he))
  · exact Or.inr (Or.inr hc)

theorem skippable_foldl_mono {cs : List Cand} {st : List JobRec × ScrapeStats} {c : Cand}
    (h : skippable st.1 c) : skippable (cs.foldl scrapeStep st).1 c := by
  unfold skippable at h ⊢
  rcases h with hu | he | hc
  · exact Or.inl hu
  · exact Or.inr (Or.inl (job_exists_foldl he))
  · exact Or.inr (Or.inr hc)

theorem scrapeStep_cases (st : List JobRec × ScrapeStats) (c : Cand) :
    (scrapeStep st c).1 = st.1 ∨
      ((scrapeStep st c).1 = st.1 ++ [mkJob c] ∧ ¬ skippable st.1 c) := by
  unfold scrapeStep
  split_ifs with h1 h2 h3 h4
  · exact Or.inl rfl
  · exact Or.inl rfl
  · exact Or.inl rfl
  · exact Or.inl rfl
  · refine Or.inr ⟨rfl, ?_⟩
    intro hsk
    unfold skippable contentSkip at hsk
    rcases hsk with hu | he | hv | ⟨hg, hb⟩
    · exact h1 hu
    · exact h2 he
    · exact h3 hv
    · exact h4 ⟨hg, hb⟩

theorem scrapeStep_handles (st : List JobRec × ScrapeStats) (c : Cand) :
    handled (scrapeStep st c).1 c := by
  unfold handled skippable contentSkip scrapeStep
  split_ifs with h1 h2 h3 h4
  · exact Or.inl (Or.inl h1)
  · exact Or.inl (Or.inr (Or.inl h2))
  · exact Or.inl (Or.inr (Or.inr (Or.inl h3)))
  · exact Or.inl (Or.inr (Or.inr (Or.inr h4)))
  · refine Or.inr ?_
    show job_exists (st.1 ++ [mkJob c]) ((mkJob c).job_url) = true
    simp only [job_exists, List.any_append, Bool.or_eq_true, List.any_cons, List.any_nil,
      Bool.or_false, decide_eq_true_eq]
    right
    trivial

theorem handled_step_mono {st : List JobRec × ScrapeStats} {c x : Cand}
    (h : handled st.1 x) : handled (scrapeStep st c).1 x := by
  unfold handled at h ⊢
  rcases h with hs | hj
  · exact Or.inl (skippable_step_mono hs)
  · exact Or.inr (job_exists_step hj)

theorem handled_foldl_mono (cs : List Cand) (st : List JobRec × ScrapeStats) (x : Cand)
    (h : handled st.1 x) : handled (cs.foldl scrapeStep st).1 x := by
  unfold handled at h ⊢
  rcases h with hs | hj
  · exact Or.inl (skippable_foldl_mono hs)
  · exact Or.inr (job_exists_foldl hj)

theorem foldl_handles (cs : List Cand) (st : List JobRec × ScrapeStats) :
    ∀ c ∈ cs, handled (cs.foldl scrapeStep st).1 c := by
  induction cs generalizing st with
  | nil => intro c hc; cases hc
  | cons c cs ih =>
    intro x hx
    rw [List.foldl_cons]
    rcases List.mem_cons.1 hx with rfl | hx2
    · exact handled_foldl_mono cs (scrapeStep st x) x (scrapeStep_handles st x)
    · exact ih (scrapeStep st c) x hx2

theorem foldl_fst_append (cs : List Cand) (st : List JobRec × ScrapeStats) :
    ∃ l, (cs.foldl scrapeStep st).1 = st.1 ++ l := by
  induction cs generalizing st with
  | nil => exact ⟨[], by simp⟩
  | cons c cs ih =>
    rw [List.foldl_cons]
    obtain ⟨l, hl⟩ := ih (scrapeStep st c)
    rcases scrapeStep_cases st c with hc | ⟨hc, -⟩
    · exact ⟨l, by rw [hl, hc]⟩
    · exact ⟨[mkJob c] ++ l, by rw [hl, hc, List.append_assoc]⟩

theorem job_exists_iff (l : List JobRec) (u : String) :
    job_exists l u = true ↔ ∃ j ∈ l, j.job_url = u := by
  simp [job_exists, List.any_eq_true]

theorem foldl_commit_dichotomy (cs : List Cand) (st : List JobRec × ScrapeStats)
    (h : ∀ c ∈ cs, handled st.1 c) :
    (cs.foldl scrapeStep st).1 = st.1 ∨
      ¬ ((cs.foldl scrapeStep st).1.map (fun j => j.job_url)).Nodup := by
  induction cs generalizing st with
  | nil => exact Or.inl rfl
  | cons c cs ih =>
    rw [List.foldl_cons]
    have htail : ∀ x ∈ cs, handled (scrapeStep st c).1 x :=
      fun x hx => handled_step_mono (h x (List.mem_cons_of_mem _ hx))
    rcases scrapeStep_cases st c with hc | ⟨hc, hnsk⟩
    · rcases ih (scrapeStep st c) htail with h1 | h2
      · exact Or.inl (by rw [h1, hc])
      · exact Or.inr h2
    · have hcu : job_exists st.1 ((mkJob c).job_url) = true := by
        rcases h c (List.mem_cons_self c cs) with hs | hj
        · exact absurd hs hnsk
        · exact hj
      right
      obtain ⟨l, hl⟩ := foldl_fst_append cs (scrapeStep st c)
      rw [hl, hc]
      intro hnod
      rw [List.append_assoc, List.map_append] at hnod
      rcases List.nodup_append.1 hnod with ⟨-, -, hdisj⟩
      have hmem1 : (mkJob c).job_url ∈ st.1.map (fun j => j.job_url) := by
        obtain ⟨j, hjm, hje⟩ := (job_exists_iff _ _).1 hcu
        exact List.mem_map.mpr ⟨j, hjm, hje⟩
      have hmem2 : (mkJob c).job_url ∈ ([mkJob c] ++ l).map (fun j => j.job_url) := by
        simp
      exact hdisj hmem1 hmem2

/-! ## Claim C1: idempotence of ingestion -/

/-- Claim C1 (amended): running scrape_and_store a second time with
identical fetch results leaves the store exactly as one run left it,
with the same record count — but not because every second-run candidate
is detected by job_exists and skipped as a duplicate: a candidate the
first run rejected (empty url, failed validator, failed bouncer) is
skipped again by those same checks, which never consult the store,
with job_exists returning false for it when its url was never stored.
A candidate the first run inserted is either detected by job_exists
or, when the 2000-character column truncated its url, re-staged and
then rejected by the url-uniqueness constraint at commit, which rolls
the second run back unchanged. -/
theorem C1_ingestion_idempotent (store : List JobRec) (cands : List Cand) :
    (scrape_and_store (scrape_and_store store cands).1 cands).1
        = (scrape_and_store store cands).1 ∧
    (scrape_and_store (scrape_and_store store cands).1 cands).1.length
        = (scrape_and_store store cands).1.length ∧
    ∀ c ∈ cands, (c.job_url = "" ∨ contentSkip c) →
      skippable (scrape_and_store store cands).1 c := by
  have heq : (scrape_and_store (scrape_and_store store cands).1 cands).1
      = (scrape_and_store store cands).1 := by
    by_cases hN : (((cands.foldl scrapeStep (store, stats0)).1).map (fun j => j.job_url)).Nodup
    · have hh : ∀ c ∈ cands, handled (scrape_and_store store cands).1 c := by
        have hs1 : (scrape_and_store store cands).1
            = (cands.foldl scrapeStep (store, stats0)).1 := by
          unfold scrape_and_store commit
          rw [if_pos hN]
        rw [hs1]
        exact foldl_handles cands (store, stats0)
      obtain ⟨s1, hgen⟩ : ∃ s1, (scrape_and_store store cands).1 = s1 := ⟨_, rfl⟩
      rw [hgen] at hh ⊢
      unfold scrape_and_store commit
      rcases foldl_commit_dichotomy cands (s1, stats0) hh with h1 | h2
      · split_ifs with hx
        · exact h1
        · rfl
      · rw [if_neg h2]
    · have hs1 : (scrape_and_store store cands).1 = store := by
        unfold scrape_and_store commit
        rw [if_neg hN]
      rw [hs1]
      exact hs1
  refine ⟨heq, by rw [heq], ?_⟩
  intro c hc hrej
  unfold skippable
  rcases hrej with hu | hcs
  · exact Or.inl hu
  · exact Or.inr (Or.inr hcs)

/-- Counterexample to claim C1 as stated: with one fetched posting that
is not an L&D role, ingestion is idempotent, but the second run never
detects its candidate through job_exists (the url was never stored) and
counts no duplicate — the candidate is skipped by the strict validator
again, refuting the stated reason that every candidate of the second
run is detected by job_exists on its url and skipped as a duplicate. -/
theorem C1_counterexample :
    job_exists (scrape_and_store [] [candSE]).1 candSE.job_url = false ∧
    (scrape_and_store (scrape_and_store [] [candSE]).1 [candSE]).2.dup = 0 ∧
    (scrape_and_store (scrape_and_store [] [candSE]).1 [candSE]).2.notLd = 1 ∧
    (scrape_and_store (scrape_and_store [] [candSE]).1 [candSE]).1 = [] := by
  refine ⟨by decide, by decide, by decide, by decide⟩

/-! ## Membership in the store after a run -/

theorem scrapeStep_mem {st : List JobRec × ScrapeStats} {c : Cand} {j : JobRec}
    (hj : j ∈ (scrapeStep st c).1) :
    j ∈ st.1 ∨ (j = mkJob c ∧ c.job_url ≠ "" ∧ is_valid_ld_role c.title = true ∧
      (enablementGate c = true → is_valid_enablement_role c.title c.description = true)) := by
  unfold scrapeStep at hj
  split_ifs at hj with h1 h2 h3 h4
  · exact Or.inl hj
  · exact Or.inl hj
  · exact Or.inl hj
  · exact Or.inl hj
  · rcases List.mem_append.1 hj with hmem | hmem
    · exact Or.inl hmem
    · right
      have hje : j = mkJob c := by simpa using hmem
      refine ⟨hje, h1, ?_, ?_⟩
      · cases hval : is_valid_ld_role c.title
        · exact absurd hval h3
        · rfl
      · intro hg
        by_contra hbad
        exact h4 ⟨hg, by simpa using hbad⟩

theorem foldl_mem {cs : List Cand} {st : List JobRec × ScrapeStats} {j : JobRec}
    (hj : j ∈ (cs.foldl scrapeStep st).1) :
    j ∈ st.1 ∨ ∃ c ∈ cs, (j = mkJob c ∧ c.job_url ≠ "" ∧ is_valid_ld_role c.title = true ∧
      (enablementGate c = true → is_valid_enablement_role c.title c.description = true)) := by
  induction cs generalizing st with
  | nil => exact Or.inl hj
  | cons c cs ih =>
    rw [List.foldl_cons] at hj
    rcases ih hj with hmem | ⟨x, hx, hp⟩
    · rcases scrapeStep_mem hmem with hmem2 | hp
      · exact Or.inl hmem2
      · exact Or.inr ⟨c, List.mem_cons_self c cs, hp⟩
    · exact Or.inr ⟨x, List.mem_cons_of_mem _ hx, hp⟩

theorem scrape_and_store_mem {store : List JobRec} {cands : List Cand} {j : JobRec}
    (hj : j ∈ (scrape_and_store store cands).1) :
    j ∈ store ∨ j ∈ (cands.foldl scrapeStep (store, stats0)).1 := by
  unfold scrape_and_store commit at hj
  split_ifs at hj with h
  · exact Or.inr hj
  · exact Or.inl hj

/-! ## Claim C2: level is derived, category is not set -/

/-- Claim C2 (amended): every Job record scrape_and_store adds to the
store carries a level derived deterministically by get_level from the
candidate title, but no category: the Job constructor call passes no
category, so the persisted category stays null instead of a value
derived by a category tagger. -/
theorem C2_level_derived_category_unset (store : List JobRec) (cands : List Cand)
    (j : JobRec) (hj : j ∈ (scrape_and_store store cands).1) :
    j ∈ store ∨ ∃ c ∈ cands, j = mkJob c ∧ j.level = get_level c.title ∧ j.category = none := by
  rcases scrape_and_store_mem hj with hs | hf
  · exact Or.inl hs
  · rcases foldl_mem hf with hmem | ⟨c, hc, hje, -, -, -⟩
    · exact Or.inl hmem
    · subst hje
      exact Or.inr ⟨c, hc, rfl, rfl, rfl⟩

/-- Witness for C2 at a concrete ingested record. -/
theorem C2_level_derived_category_unset_witness :
    mkJob candID ∈ ([] : List JobRec) ∨ ∃ c ∈ [candID], mkJob candID = mkJob c ∧
      (mkJob candID).level = get_level c.title ∧ (mkJob candID).category = none :=
  C2_level_derived_category_unset [] [candID] (mkJob candID) (by decide)

/-- Counterexample to claim C2 as stated: the managerial posting candID
is ingested and persisted, its level is derived, but its category field
is null — not a value derived from title or description. -/
theorem C2_counterexample :
    (scrape_and_store [] [candID]).1 = [mkJob candID] ∧
    (mkJob candID).category = none ∧ (mkJob candID).level = "Management+" := by
  exact ⟨by decide, rfl, by decide⟩

/-! ## Claim C8: what the insertion filters guarantee -/

theorem pyslice_ne_empty {s : String} {n : Nat} (hs : s ≠ "") (hn : 0 < n) :
    pyslice s n ≠ "" := by
  intro h
  apply hs
  have h2 : s.toList.take n = ([] : List Char) := congrArg String.data h
  rw [List.take_eq_nil_iff] at h2
  rcases h2 with h0 | hnil
  · omega
  · cases s with
    | mk d =>
      apply String.ext
      exact hnil

/-- Claim C8 (amended): every Job record scrape_and_store adds has a
non-empty job_url, and its originating candidate passed the strict L&D
validator and, when the enablement gate applied, the bouncer — on the
candidate title as fetched; the stored title is that title truncated to
500 characters, so the same properties transfer to the stored title
whenever it is at most 500 characters long. -/
theorem C8_insertion_invariant (store : List JobRec) (cands : List Cand) (j : JobRec)
    (hj : j ∈ (scrape_and_store store cands).1) :
    j ∈ store ∨ (j.job_url ≠ "" ∧ ∃ c ∈ cands, j = mkJob c ∧ is_valid_ld_role c.title = true ∧
      (enablementGate c = true → is_valid_enablement_role c.title c.description = true)) := by
  rcases scrape_and_store_mem hj with hs | hf
  · exact Or.inl hs
  · rcases foldl_mem hf with hmem | ⟨c, hc, hje, hurl, hval, hena⟩
    · exact Or.inl hmem
    · right
      constructor
      · rw [hje]
        show pyslice c.job_url 2000 ≠ ""
        exact pyslice_ne_empty hurl (by norm_num)
      · exact ⟨c, hc, hje, hval, hena⟩

/-- Witness for C8 at a concrete ingested record. -/
theorem C8_insertion_invariant_witness :
    mkJob candCoach ∈ ([] : List JobRec) ∨ ((mkJob candCoach).job_url ≠ "" ∧
      ∃ c ∈ [candCoach], mkJob candCoach = mkJob c ∧ is_valid_ld_role c.title = true ∧
        (enablementGate c = true → is_valid_enablement_role c.title c.description = true)) :=
  C8_insertion_invariant [] [candCoach] (mkJob candCoach) (by decide)

theorem strContains_replicate (k : String) (n : Nat) (c : Char)
    (h : ∃ a ∈ k.toList, a ≠ c) : subList k.toList (List.replicate n c) = false := by
  obtain ⟨a, ha, hane⟩ := h
  cases hb : subList k.toList (List.replicate n c)
  · rfl
  · exact absurd (List.eq_of_mem_replicate (((subList_iff _ _).1 hb).subset ha)) hane

/-- Counterexample to claim C8 as stated: the 508-character title of
candLongTitle passes the validator (it ends in training), the posting
is ingested, but the persisted record keeps only the first 500
characters of the title, which contain no L&D keyword — so the record
itself fails is_valid_ld_role on its own stored title. -/
theorem C8_counterexample :
    (scrape_and_store [] [candLongTitle]).1 = [mkJob candLongTitle] ∧
    (mkJob candLongTitle).title = some xs500 ∧
    is_valid_ld_role xs500 = false := by
  have htne : candLongTitle.title ≠ "" := by
    intro h
    have h2 : List.replicate 500 'x' ++ "training".toList = ([] : List Char) :=
      congrArg String.data h
    have h3 := congrArg List.length h2
    rw [List.length_append, List.length_replicate, List.length_nil] at h3
    have h4 : ("training".toList).length = 8 := by decide
    omega
  have hlow : candLongTitle.title.pyLower.toList
      = List.replicate 500 'x' ++ "training".toList := by
    show (List.replicate 500 'x' ++ "training".toList).map Char.toLower
        = List.replicate 500 'x' ++ "training".toList
    rw [List.map_append, List.map_replicate]
    rw [show Char.toLower 'x' = 'x' from by decide]
    rw [show ("training".toList).map Char.toLower = "training".toList from by decide]
  have hval : is_valid_ld_role candLongTitle.title = true := by
    unfold is_valid_ld_role
    rw [if_neg htne]
    apply List.any_eq_true.mpr
    refine ⟨"training", by decide, ?_⟩
    show subList "training".toList candLongTitle.title.pyLower.toList = true
    rw [hlow, subList_iff]
    exact (List.suffix_append _ _).isInfix
  have hgate : enablementGate candLongTitle = false := by
    have hsub : strContains candLongTitle.title.pyLower "enablement" = false := by
      show subList "enablement".toList candLongTitle.title.pyLower.toList = false
      rw [hlow]
      cases hb : subList "enablement".toList (List.replicate 500 'x' ++ "training".toList)
      · rfl
      · exfalso
        have hinf := (subList_iff _ _).1 hb
        have hbmem : ('b' : Char) ∈ "enablement".toList := by decide
        have hbnot : ('b' : Char) ∉ List.replicate 500 'x' ++ "training".toList := by
          intro hmem
          rcases List.mem_append.1 hmem with hm | hm
          · exact absurd (List.eq_of_mem_replicate hm) (by decide)
          · exact absurd hm (by decide)
        exact hbnot (hinf.subset hbmem)
    unfold enablementGate
    rw [hsub, Bool.and_false]
  have hfold1 : (List.foldl scrapeStep (([] : List JobRec), stats0) [candLongTitle]).1
      = [mkJob candLongTitle] := by
    rw [List.foldl_cons, List.foldl_nil]
    unfold scrapeStep
    rw [if_neg (by decide : ¬ (candLongTitle.job_url = ""))]
    rw [if_neg (by decide : ¬ (job_exists ([] : List JobRec) candLongTitle.job_url = true))]
    rw [if_neg (by rw [hval]; exact fun hcon => by cases hcon)]
    rw [if_neg (by
      rintro ⟨hg, -⟩
      rw [hgate] at hg
      cases hg)]
    rfl
  have runt : (scrape_and_store [] [candLongTitle]).1 = [mkJob candLongTitle] := by
    unfold scrape_and_store commit
    rw [hfold1]
    rw [if_pos (by simp : ([mkJob candLongTitle].map (fun j => j.job_url)).Nodup)]
    exact hfold1
  have hxlow : xs500.pyLower.toList = List.replicate 500 'x' := by
    show (List.replicate 500 'x').map Char.toLower = List.replicate 500 'x'
    rw [List.map_replicate]
    rw [show Char.toLower 'x' = 'x' from by decide]
  have hxs_ne : xs500 ≠ "" := by
    intro h
    have h2 : List.replicate 500 'x' = ([] : List Char) := congrArg String.data h
    have h3 := congrArg List.length h2
    rw [List.length_replicate, List.length_nil] at h3
    exact absurd h3 (by norm_num)
  have hxs_invalid : is_valid_ld_role xs500 = false := by
    unfold is_valid_ld_role
    rw [if_neg hxs_ne]
    rw [List.any_eq_false]
    intro k hk
    have hall : ∀ k ∈ ld_keywords, ∃ a ∈ k.toList, a ≠ 'x' := by decide
    intro hcon
    have hcon2 : subList k.toList (List.replicate 500 'x') = true := by
      rw [← hxlow]
      exact hcon
    rw [strContains_replicate k 500 'x' (hall k hk)] at hcon2
    cases hcon2
  have htitle : (mkJob candLongTitle).title = some xs500 := by
    show (if candLongTitle.title = "" then none else some (pyslice candLongTitle.title 500))
        = some xs500
    rw [if_neg htne]
    apply congrArg
    apply String.ext
    show (List.replicate 500 'x' ++ "training".toList).take 500 = List.replicate 500 'x'
    have htl := List.take_left (List.replicate 500 'x') ("training".toList)
    rw [List.length_replicate] at htl
    exact htl
  exact ⟨runt, htitle, hxs_invalid⟩

end LDJobs
